import Mathlib

/-!
Shallow embedding of the composite technical-analysis scorer of
`src/tools/analysis/ta_summary.py` (`get_ta_summary` and its inline helper
functions).  Python floats are idealised as rationals (ℚ); Python ints as ℤ.
Every definition mirrors the corresponding source function; the only
source-independent definitions are the ones whose doc comments say they are
modelled from the spec's words, used for refinement comparisons.
-/

/-- One OHLCV bar: a row `[ts, open, high, low, close, volume]` of the
fetched `ohlcv` list (the timestamp is never read by the scorer). -/
structure Bar where
  op : ℚ
  hi : ℚ
  lo : ℚ
  cl : ℚ
  vol : ℚ
deriving DecidableEq, Repr

instance : Inhabited Bar := ⟨⟨0, 0, 0, 0, 0⟩⟩

def opensOf (bars : List Bar) : List ℚ := bars.map Bar.op

def highsOf (bars : List Bar) : List ℚ := bars.map Bar.hi

def lowsOf (bars : List Bar) : List ℚ := bars.map Bar.lo

def closesOf (bars : List Bar) : List ℚ := bars.map Bar.cl

def volumesOf (bars : List Bar) : List ℚ := bars.map Bar.vol

/-- Python slice `data[-n:]` (the last `n` elements; the callers always pass
`n ≥ 1`). -/
def lastN (n : ℕ) (l : List ℚ) : List ℚ := l.drop (l.length - n)

/-- Python negative index `l[-k]` (the callers always guard `k ≤ len l`). -/
def negIdx (l : List ℚ) (k : ℕ) : ℚ := l.getD (l.length - k) 0

/-- Python `max(l)` on a nonempty list (0 for the empty list, which no
caller reaches). -/
def pyMax (l : List ℚ) : ℚ :=
  match l with
  | [] => 0
  | x :: xs => xs.foldl max x

/-- Python `min(l)` on a nonempty list (0 for the empty list, which no
caller reaches). -/
def pyMin (l : List ℚ) : ℚ :=
  match l with
  | [] => 0
  | x :: xs => xs.foldl min x

/-- Models Python `q ** 0.5` on a nonnegative rational: exact on perfect
squares (the scorer only ever branches on this value being zero or not at
the claims under study). -/
def ratSqrt (q : ℚ) : ℚ := (Nat.sqrt q.num.toNat : ℚ) / (Nat.sqrt q.den : ℚ)

/-- Source `sma(data, period)`. -/
def sma (data : List ℚ) (period : ℕ) : Option ℚ :=
  if data.length < period ∨ period = 0 then none
  else some ((lastN period data).sum / (period : ℚ))

/-- Source `ema(data, period)`: seed at `data[0]`, recurrence over the tail. -/
def ema (data : List ℚ) (period : ℕ) : Option ℚ :=
  if data.length < period ∨ period = 0 then none
  else
    match data with
    | [] => none
    | d0 :: rest =>
      let k : ℚ := 2 / ((period : ℚ) + 1)
      some (rest.foldl (fun e price => price * k + e * (1 - k)) d0)

/-- Source `wma(data, period)`: weights `1..period` over the last window. -/
def wma (data : List ℚ) (period : ℕ) : Option ℚ :=
  if data.length < period ∨ period = 0 then none
  else
    let weights : List ℚ := (List.range period).map (fun i : ℕ => (i : ℚ) + 1)
    let window := lastN period data
    some ((List.zipWith (fun w x => w * x) weights window).sum / weights.sum)

/-- Source `hma(data, period)`: the Hull combination is computed once at the
final bar and spliced onto the raw history `data[:-1]` (Python
`int(period ** 0.5)` is `Nat.sqrt period` at the integer arguments used). -/
def hma (data : List ℚ) (period : ℕ) : Option ℚ :=
  if period = 0 ∨ data.length < period then none
  else
    let half := max 1 (period / 2)
    let sqrtp := max 1 (Nat.sqrt period)
    match wma data half, wma data period with
    | some wmaHalf, some wmaFull =>
      wma (data.dropLast ++ [2 * wmaHalf - wmaFull]) sqrtp
    | _, _ => none

/-- Source `vwma(price, vol, period)`. -/
def vwma (price vol : List ℚ) (period : ℕ) : Option ℚ :=
  if price.length < period ∨ vol.length < period ∨ period = 0 then none
  else
    let pv := (List.zipWith (fun p v => p * v) (lastN period price) (lastN period vol)).sum
    let vv := (lastN period vol).sum
    if vv = 0 then none else some (pv / vv)

/-- Source `stddev(data, period)`: population standard deviation of the last
window (`var ** 0.5` modelled by `ratSqrt`). -/
def stddev (data : List ℚ) (period : ℕ) : Option ℚ :=
  if data.length < period ∨ period ≤ 1 then none
  else
    let window := lastN period data
    let m := window.sum / (period : ℚ)
    let var := (window.map (fun x => (x - m) ^ 2)).sum / (period : ℚ)
    some (ratSqrt var)

/-- Deltas `data[i] - data[i-1]` for `i` in `1..len-1`, as built by the
loops of `rsi_series` and `stoch_rsi_k`. -/
def diffs (data : List ℚ) : List ℚ :=
  List.zipWith (fun a b => a - b) (data.drop 1) data

/-- Gains list of `rsi_series` / `stoch_rsi_k`: `max(ch, 0)` per delta. -/
def gainsOf (data : List ℚ) : List ℚ := (diffs data).map (fun ch => max ch 0)

/-- Losses list of `rsi_series` / `stoch_rsi_k`: `abs(min(ch, 0))` per delta. -/
def lossesOf (data : List ℚ) : List ℚ := (diffs data).map (fun ch => |min ch 0|)

/-- Source `rsi_series(data, period)`. -/
def rsi_series (data : List ℚ) (period : ℕ) : Option ℚ :=
  if data.length < period + 1 then none
  else
    let avgGain := (lastN period (gainsOf data)).sum / (period : ℚ)
    let avgLoss := (lastN period (lossesOf data)).sum / (period : ℚ)
    if avgLoss = 0 then some 100
    else some (100 - 100 / (1 + avgGain / avgLoss))

/-- Source `stoch_k(highs_, lows_, closes_, k_len, smooth_k)` (the smoothing
branch returns `raw_k` on both sides, as in the source). -/
def stoch_k (highs lows closes : List ℚ) (kLen smoothK : ℕ) : Option ℚ :=
  if closes.length < kLen then none
  else
    let hh := pyMax (lastN kLen highs)
    let ll := pyMin (lastN kLen lows)
    let rawK := if hh = ll then 50 else (negIdx closes 1 - ll) / (hh - ll) * 100
    some (if smoothK ≤ 1 then rawK else rawK)

/-- Source `cci(src_, period)` (`0.015` is `3/200`). -/
def cci (src : List ℚ) (period : ℕ) : Option ℚ :=
  if src.length < period then none
  else
    match sma src period, stddev src period with
    | some ma, some sd =>
      if sd = 0 then none else some ((negIdx src 1 - ma) / ((3 / 200) * sd))
    | _, _ => none

/-- Source `ao_value(highs_, lows_)`: `SMA5(hl2) − SMA34(hl2)`. -/
def ao_value (highs lows : List ℚ) : Option ℚ :=
  let hl2 := List.zipWith (fun h l => (h + l) / 2) highs lows
  match sma hl2 5, sma hl2 34 with
  | some s5, some s34 => some (s5 - s34)
  | _, _ => none

/-- Directional-movement pairs of `adx_di`: for each consecutive bar pair,
`(+DM, −DM)` with the tie rules of the source loop. -/
def dmLists : List ℚ → List ℚ → List (ℚ × ℚ)
  | h0 :: h1 :: hs, l0 :: l1 :: ls =>
    let up := h1 - h0
    let down := l0 - l1
    (if up > down ∧ up > 0 then up else 0,
     if down > up ∧ down > 0 then down else 0) :: dmLists (h1 :: hs) (l1 :: ls)
  | _, _ => []

/-- Source `true_range(h, l, c)`: one TR value per bar from index 1 on. -/
def true_range : List ℚ → List ℚ → List ℚ → List ℚ
  | _ :: h1 :: hs, _ :: l1 :: ls, c0 :: c1 :: cs =>
    max (h1 - l1) (max |h1 - c0| |l1 - c0|) :: true_range (h1 :: hs) (l1 :: ls) (c1 :: cs)
  | _, _, _ => []

/-- Source inner `rma(series, length)` of `adx_di`: Wilder smoothing seeded
at the first element. -/
def rma (series : List ℚ) (length : ℕ) : Option ℚ :=
  if series.length < length then none
  else
    match series with
    | [] => none
    | s0 :: rest =>
      let alpha : ℚ := 1 / (length : ℚ)
      some (rest.foldl (fun val x => alpha * x + (1 - alpha) * val) s0)

/-- Source `adx_di(highs_, lows_, closes_, period)`; `none` stands for the
all-`None` triple the source returns on any failure. -/
def adx_di (highs lows closes : List ℚ) (period : ℕ) : Option (ℚ × ℚ × ℚ) :=
  if closes.length < period + 2 then none
  else
    let dms := dmLists highs lows
    let trs := true_range highs lows closes
    if trs.length < period then none
    else
      match rma trs period, rma (dms.map Prod.fst) period, rma (dms.map Prod.snd) period with
      | some trRma, some dmpRma, some dmnRma =>
        if trRma = 0 then none
        else
          let dip := 100 * (dmpRma / trRma)
          let dim := 100 * (dmnRma / trRma)
          let dx := 100 * |dip - dim| / max (dip + dim) (1 / 1000000000)
          some (dip, dim, dx)
      | _, _, _ => none

/-- MACD-line series of `macd_hist`: running EMA12 and EMA26 both seeded at
`closes[0]`, one `e12 − e26` sample appended per close. -/
def macdAux : List ℚ → ℚ → ℚ → List ℚ
  | [], _, _ => []
  | p :: ps, e12, e26 =>
    let f12 := p * (2 / 13) + e12 * (1 - 2 / 13)
    let f26 := p * (2 / 27) + e26 * (1 - 2 / 27)
    (f12 - f26) :: macdAux ps f12 f26

def macdSeries (closes : List ℚ) : List ℚ :=
  match closes with
  | [] => []
  | c0 :: _ => macdAux closes c0 c0

/-- Source `macd_hist(closes_)`: `(macd_series[-1], signal, (hist, hist_prev))`;
`none` stands for the all-`None` triple. -/
def macd_hist (closes : List ℚ) : Option (ℚ × ℚ × (ℚ × Option ℚ)) :=
  match ema closes 12, ema closes 26 with
  | some _, some _ =>
    let ms := macdSeries closes
    match ema ms 9 with
    | none => none
    | some signal =>
      let hist := negIdx ms 1 - signal
      let histPrev : Option ℚ :=
        if ms.length > 10 then (ema ms.dropLast 9).map (fun s2 => negIdx ms 2 - s2)
        else none
      some (negIdx ms 1, signal, (hist, histPrev))
  | _, _ => none

/-- One rolled RSI sample of the `stoch_rsi_k` loop, at loop index `i`. -/
def rollRsi (gains losses : List ℚ) (rlen i : ℕ) : ℚ :=
  let g := ((gains.drop (i - rlen)).take rlen).sum / (rlen : ℚ)
  let l := ((losses.drop (i - rlen)).take rlen).sum / (rlen : ℚ)
  if l = 0 then (100 : ℚ) else 100 - 100 / (1 + g / l)

/-- Source `stoch_rsi_k(closes_, rlen, stochlen, smooth)`. -/
def stoch_rsi_k (closes : List ℚ) (rlen stochlen smooth : ℕ) : Option ℚ :=
  if closes.length < rlen + stochlen then none
  else
    let gains := gainsOf closes
    let losses := lossesOf closes
    let rsiVals := (List.range (closes.length - rlen)).map (fun j =>
      rollRsi gains losses rlen (rlen + j))
    if rsiVals.length < stochlen then none
    else
      let hh := pyMax (lastN stochlen rsiVals)
      let ll := pyMin (lastN stochlen rsiVals)
      let rawK := if hh = ll then (50 : ℚ) else (negIdx rsiVals 1 - ll) / (hh - ll) * 100
      some (if smooth ≤ 1 then rawK else rawK)

/-- Source `williams_r(highs_, lows_, closes_, period)`. -/
def williams_r (highs lows closes : List ℚ) (period : ℕ) : Option ℚ :=
  if closes.length < period then none
  else
    let hh := pyMax (lastN period highs)
    let ll := pyMin (lastN period lows)
    if hh = ll then some 0
    else some (100 * (negIdx closes 1 - hh) / (hh - ll))

/-- Buying pressure / true range of one bar index inside `ultimate_osc`. -/
def calcBpTr (highs lows closes : List ℚ) (i : ℕ) : ℚ × ℚ :=
  let high_ := max (highs.getD i 0) (closes.getD (i - 1) 0)
  let low_ := min (lows.getD i 0) (closes.getD (i - 1) 0)
  (closes.getD i 0 - low_, high_ - low_)

/-- Inner `avg_bp_tr(length)` of `ultimate_osc`: the loop accumulates the two
sums over the last `length` indices, here written as sums over the same index
list. -/
def avgBpTr (highs lows closes : List ℚ) (length : ℕ) : ℚ :=
  let idxs := (List.range length).map (fun j => closes.length - length + j)
  let bpSum := (idxs.map (fun i => (calcBpTr highs lows closes i).1)).sum
  let trSum := (idxs.map (fun i => (calcBpTr highs lows closes i).2)).sum
  if trSum ≠ 0 then bpSum / trSum else 0

/-- Source `ultimate_osc(highs_, lows_, closes_, a, b, c)`. -/
def ultimate_osc (highs lows closes : List ℚ) (a b c : ℕ) : Option ℚ :=
  if closes.length < c + 1 then none
  else
    some (100 * (4 * avgBpTr highs lows closes a + 2 * avgBpTr highs lows closes b
      + avgBpTr highs lows closes c) / 7)

/-- Source `ichimoku_baseline(closes_, period)`: note the source body reads
the enclosing `highs` / `lows` lists, not its `closes_` argument. -/
def ichimoku_baseline (highs lows : List ℚ) (period : ℕ) : Option ℚ :=
  if highs.length < period ∨ lows.length < period then none
  else some ((pyMax (lastN period highs) + pyMin (lastN period lows)) / 2)

/-- Running-EMA series of the Bull/Bear Power branch: seed `closes[0]`, one
appended value per close (so the first entry equals `closes[0]`). -/
def emaSeriesAux : List ℚ → ℚ → ℚ → List ℚ
  | [], _, _ => []
  | p :: ps, e, k =>
    let e2 := p * k + e * (1 - k)
    e2 :: emaSeriesAux ps e2 k

def emaSeriesK (closes : List ℚ) (k : ℚ) : List ℚ :=
  match closes with
  | [] => []
  | c0 :: _ => emaSeriesAux closes c0 k

/-- Per-index values `(highs[i] − ema_series[i]) − (lows[i] − ema_series[i])`
of the Bull/Bear Power branch. -/
def bbSeries : List ℚ → List ℚ → List ℚ → List ℚ
  | h :: hs, l :: ls, e :: es => ((h - e) - (l - e)) :: bbSeries hs ls es
  | _, _, _ => []

/-- Per-indicator classification: `buy` / `sell` when the source increments
`osc_buy` / `osc_sell`; a `none` entry is an indicator left neutral or
skipped. -/
inductive Cls where
  | buy : Cls
  | sell : Cls
deriving DecidableEq, Repr

/-- Overall signal labels of the source's final if-chain. -/
inductive Signal where
  | strongBuy : Signal
  | buy : Signal
  | strongSell : Signal
  | sell : Signal
  | neutral : Signal
deriving DecidableEq, Repr

/-- Failure modes of the scorer: the explicit `< 50` refusal, and the
`TypeError` Python would raise when an unguarded `None` meets `<`. -/
inductive TAError where
  | insufficientData : TAError
  | typeError : TAError
deriving DecidableEq, Repr

/-- RSI branch (source lines 257-260). -/
def clsRsi (rsi : ℚ) : Option Cls :=
  if rsi < 30 then some .buy else if rsi > 70 then some .sell else none

/-- Stochastic %K branch (source lines 264-267). -/
def clsStoch (s : ℚ) : Option Cls :=
  if s < 20 then some .buy else if s > 80 then some .sell else none

/-- CCI branch (source lines 271-275). -/
def clsCci (v : Option ℚ) : Option Cls :=
  match v with
  | none => none
  | some x => if x < -100 then some .buy else if x > 100 then some .sell else none

/-- ADX/DI branch (source lines 279-284). -/
def clsAdx (t : Option (ℚ × ℚ × ℚ)) : Option Cls :=
  match t with
  | none => none
  | some (dip, dim, adx) =>
    if adx > 25 then
      if dip > dim then some .buy else if dim > dip then some .sell else none
    else none

/-- Awesome Oscillator branch (source lines 288-292). -/
def clsAo (v : Option ℚ) : Option Cls :=
  match v with
  | none => none
  | some a => if a > 0 then some .buy else if a < 0 then some .sell else none

/-- Momentum value (source line 295): `current − closes[-11]`, or 0 without
11 bars of history. -/
def momVal (closes : List ℚ) : ℚ :=
  if closes.length > 10 then negIdx closes 1 - negIdx closes 11 else 0

/-- Momentum branch (source lines 296-299): binary, never neutral. -/
def clsMom (m : ℚ) : Option Cls :=
  some (if m > 0 then .buy else .sell)

/-- MACD histogram-slope branch (source lines 303-308). -/
def clsMacd (r : Option (ℚ × ℚ × (ℚ × Option ℚ))) : Option Cls :=
  match r with
  | some (_, _, (histCur, some histPrev)) =>
    some (if histCur > histPrev then .buy else .sell)
  | _ => none

/-- Stochastic RSI branch (source lines 312-316). -/
def clsStochRsi (v : Option ℚ) : Option Cls :=
  match v with
  | none => none
  | some k => if k < 20 then some .buy else if k > 80 then some .sell else none

/-- Williams %R branch (source lines 320-324). -/
def clsWilliams (v : Option ℚ) : Option Cls :=
  match v with
  | none => none
  | some w => if w < -80 then some .buy else if w > -20 then some .sell else none

/-- Bull/Bear Power branch (source lines 328-352), including the 30-bar
smoothed path and the single-bar fallback. -/
def clsBullBear (highs lows closes : List ℚ) : Option Cls :=
  match ema closes 13 with
  | none => none
  | some ema13 =>
    let bull := negIdx highs 1 - ema13
    let bear := negIdx lows 1 - ema13
    if closes.length ≥ 30 then
      let es := emaSeriesK closes (2 / 14)
      let bb := bbSeries highs lows es
      match sma bb 30 with
      | some s => some (if s > 0 then .buy else .sell)
      | none => some .sell
    else some (if bull - bear > 0 then .buy else .sell)

/-- Ultimate Oscillator branch (source lines 356-360). -/
def clsUo (v : Option ℚ) : Option Cls :=
  match v with
  | none => none
  | some u => if u < 30 then some .buy else if u > 70 then some .sell else none

/-- Count the entries of one kind among the per-indicator outcomes. -/
def countCls (c : Cls) (l : List (Option Cls)) : ℤ :=
  l.foldl (fun acc x => if x = some c then acc + 1 else acc) 0

/-- The eleven oscillator outcomes, in source order (lines 255-360), given
the already-unwrapped RSI and Stochastic values of the two unguarded
comparisons. -/
def oscSignals (bars : List Bar) (rsi stoch : ℚ) : List (Option Cls) :=
  let highs := highsOf bars
  let lows := lowsOf bars
  let closes := closesOf bars
  [clsRsi rsi,
   clsStoch stoch,
   clsCci (cci closes 20),
   clsAdx (adx_di highs lows closes 14),
   clsAo (ao_value highs lows),
   clsMom (momVal closes),
   clsMacd (macd_hist closes),
   clsStochRsi (stoch_rsi_k closes 14 14 3),
   clsWilliams (williams_r highs lows closes 14),
   clsBullBear highs lows closes,
   clsUo (ultimate_osc highs lows closes 7 14 28)]

/-- The seventeen candidate moving-average values, in source order
(lines 379-395). -/
def maCandidates (bars : List Bar) : List (Option ℚ) :=
  let highs := highsOf bars
  let lows := lowsOf bars
  let closes := closesOf bars
  let volumes := volumesOf bars
  [ema closes 5, sma closes 5, ema closes 10, sma closes 10,
   ema closes 21, sma closes 20, ema closes 30, sma closes 30,
   ema closes 55, sma closes 50, ema closes 100, sma closes 100,
   ema closes 200, sma closes 200,
   ichimoku_baseline highs lows 26,
   vwma closes volumes 20,
   hma closes 9]

/-- Source `add_ma_signal` applied over the candidate list: an absent value
changes nothing; a present one raises the possible count and exactly one of
buy/sell, by `current > val`. Accumulator `(buy, sell, possible)`. -/
def maTally (current : ℚ) (vals : List (Option ℚ)) : ℤ × ℤ × ℤ :=
  vals.foldl (fun acc val =>
    match val with
    | none => acc
    | some v =>
      if current > v then (acc.1 + 1, acc.2.1, acc.2.2 + 1)
      else (acc.1, acc.2.1 + 1, acc.2.2 + 1)) (0, 0, 0)

/-- One pivot-family classification (each of the four formulas, source
lines 411-442): buy above R1, sell below S1, else neutral. -/
def clsPivot (current r1 s1 : ℚ) : Option Cls :=
  if current > r1 then some .buy else if current < s1 then some .sell else none

/-- The four pivot outcomes from the previous bar (source lines 403-442). -/
def pivotSignals (prev : Bar) (current : ℚ) : List (Option Cls) :=
  let trPp := (prev.hi + prev.lo + prev.cl) / 3
  let trR1 := trPp + trPp - prev.lo
  let trS1 := trPp - (prev.hi - trPp)
  let range_ := prev.hi - prev.lo
  let fibR1 := trPp + range_ * (382 / 1000)
  let fibS1 := trPp - range_ * (382 / 1000)
  let woPp := (prev.hi + prev.lo + 2 * prev.op) / 4
  let woR1 := woPp + woPp - prev.lo
  let woS1 := woPp - (prev.hi - woPp)
  let camR1 := prev.cl + (prev.hi - prev.lo) * (11 / 10) / 12
  let camS1 := prev.cl - (prev.hi - prev.lo) * (11 / 10) / 12
  [clsPivot current trR1 trS1,
   clsPivot current fibR1 fibS1,
   clsPivot current woR1 woS1,
   clsPivot current camR1 camS1]

/-- Overall-signal if-chain of the source (lines 465-474). -/
def overallSignal (buyPct sellPct : ℚ) (oscBuy oscSell maBuy maSell pivotBuy pivotSell : ℤ) :
    Signal :=
  if buyPct > 60 ∧ oscBuy > oscSell ∧ maBuy > maSell ∧ pivotBuy ≥ pivotSell then .strongBuy
  else if buyPct > 50 then .buy
  else if sellPct > 60 ∧ oscSell > oscBuy ∧ maSell > maBuy ∧ pivotSell ≥ pivotBuy then .strongSell
  else if sellPct > 50 then .sell
  else .neutral

/-- Modelled from the spec: the overall-signal decision rule exactly as the
spec's five ordered clauses state it, for refinement comparison with
`overallSignal`. -/
def overallSignalSpec (buyPct sellPct : ℚ)
    (oscBuy oscSell maBuy maSell pivotBuy pivotSell : ℤ) : Signal :=
  if buyPct > 60 ∧ oscBuy > oscSell ∧ maBuy > maSell ∧ pivotBuy ≥ pivotSell then .strongBuy
  else if buyPct > 50 then .buy
  else if sellPct > 60 ∧ oscSell > oscBuy ∧ maSell > maBuy ∧ pivotSell ≥ pivotBuy then .strongSell
  else if sellPct > 50 then .sell
  else .neutral

/-- The aggregated result (spec `CompositeVerdict`): every quantity the
source derives after the indicator passes (lines 445-474). -/
structure CompositeVerdict where
  oscBuy : ℤ
  oscSell : ℤ
  totalOsc : ℤ
  maBuy : ℤ
  maSell : ℤ
  maPossible : ℤ
  pivotBuy : ℤ
  pivotSell : ℤ
  pivotPossible : ℤ
  buyTotal : ℤ
  sellTotal : ℤ
  neutralTotal : ℤ
  totalPossible : ℤ
  buyPct : ℚ
  sellPct : ℚ
  neutralPct : ℚ
  buyPoint : ℚ
  sellPoint : ℚ
  overall : Signal
deriving DecidableEq, Repr

/-- Everything `get_ta_summary` computes after its guards (source
lines 251-474), for an accepted series and the two unwrapped oscillator
values whose `None` cases the source never guards. -/
def scoreBody (bars : List Bar) (rsi stoch : ℚ) : CompositeVerdict :=
  let closes := closesOf bars
  let current := negIdx closes 1
  let osc := oscSignals bars rsi stoch
  let oscBuy := countCls .buy osc
  let oscSell := countCls .sell osc
  let totalOsc : ℤ := 11
  let ma := maTally current (maCandidates bars)
  let maBuy := ma.1
  let maSell := ma.2.1
  let maPossible := ma.2.2
  let piv : List (Option Cls) :=
    if bars.length ≥ 2 then pivotSignals (bars.getD (bars.length - 2) default) current
    else []
  let pivotBuy := countCls .buy piv
  let pivotSell := countCls .sell piv
  let pivotPossible : ℤ := if bars.length ≥ 2 then 4 else 0
  let total := totalOsc + maPossible + pivotPossible
  let oscNeutral := totalOsc - oscBuy - oscSell
  let maNeutral := maPossible - maBuy - maSell
  let pivotNeutral := pivotPossible - pivotBuy - pivotSell
  let totalBuy := oscBuy + maBuy + pivotBuy
  let totalSell := oscSell + maSell + pivotSell
  let totalNeutral := oscNeutral + maNeutral + pivotNeutral
  let buyPct := if total > 0 then ((totalBuy : ℚ) / (total : ℚ)) * 100 else 0
  let sellPct := if total > 0 then ((totalSell : ℚ) / (total : ℚ)) * 100 else 0
  let neutralPct := if total > 0 then ((totalNeutral : ℚ) / (total : ℚ)) * 100 else 0
  let buyPoint := if total > 0 then ((totalBuy : ℚ) / (total : ℚ)) * 10 else 0
  let sellPoint := if total > 0 then ((totalSell : ℚ) / (total : ℚ)) * 10 else 0
  { oscBuy := oscBuy, oscSell := oscSell, totalOsc := totalOsc,
    maBuy := maBuy, maSell := maSell, maPossible := maPossible,
    pivotBuy := pivotBuy, pivotSell := pivotSell, pivotPossible := pivotPossible,
    buyTotal := totalBuy, sellTotal := totalSell, neutralTotal := totalNeutral,
    totalPossible := total,
    buyPct := buyPct, sellPct := sellPct, neutralPct := neutralPct,
    buyPoint := buyPoint, sellPoint := sellPoint,
    overall := overallSignal buyPct sellPct oscBuy oscSell maBuy maSell pivotBuy pivotSell }

/-- Source `get_ta_summary` minus fetching and text rendering: refuse under
50 bars, reproduce the `TypeError` Python raises if either unguarded
oscillator were `None`, and otherwise score. -/
def scoreSeries (bars : List Bar) : Except TAError CompositeVerdict :=
  if bars.length < 50 then .error .insufficientData
  else
    match rsi_series (closesOf bars) 14,
      stoch_k (highsOf bars) (lowsOf bars) (closesOf bars) 14 3 with
    | some rsi, some stoch => .ok (scoreBody bars rsi stoch)
    | _, _ => .error .typeError

/-- The full call with its clock dependency made explicit: the rendered
report (source lines 476-511) carries the `datetime.utcnow()` stamp next to
the verdict-derived content. -/
def taSummaryFull (now : ℕ) (bars : List Bar) : Except TAError (ℕ × CompositeVerdict) :=
  (scoreSeries bars).map (fun v => (now, v))

/-- Modelled from the spec: `WMA(sqrt(n))` applied to the rolling derived
series whose element at each bar is `2·WMA(n/2) − WMA(n)` of the history up
to that bar, per the standard Hull construction the spec cites. -/
def hmaSpec (data : List ℚ) (period : ℕ) : Option ℚ :=
  if period = 0 ∨ data.length < period then none
  else
    let derived := (List.range data.length).filterMap (fun t =>
      match wma (data.take (t + 1)) (period / 2), wma (data.take (t + 1)) period with
      | some a, some b => some (2 * a - b)
      | _, _ => none)
    wma derived (Nat.sqrt period)

/-- A constant OHLCV bar: every price equal to `c`, volume `v`. -/
def flatBar (c v : ℚ) : Bar := ⟨c, c, c, c, v⟩

/-- A flat series: `n` copies of the constant bar. -/
def flatBars (n : ℕ) (c v : ℚ) : List Bar := List.replicate n (flatBar c v)

/-! Helper lemmas about the indicator library on flat (constant) input. -/

lemma closesOf_flat (n : ℕ) (c v : ℚ) : closesOf (flatBars n c v) = List.replicate n c := by
  simp [closesOf, flatBars, flatBar]

lemma highsOf_flat (n : ℕ) (c v : ℚ) : highsOf (flatBars n c v) = List.replicate n c := by
  simp [highsOf, flatBars, flatBar]

lemma lowsOf_flat (n : ℕ) (c v : ℚ) : lowsOf (flatBars n c v) = List.replicate n c := by
  simp [lowsOf, flatBars, flatBar]

lemma volumesOf_flat (n : ℕ) (c v : ℚ) : volumesOf (flatBars n c v) = List.replicate n v := by
  simp [volumesOf, flatBars, flatBar]

lemma length_flatBars (n : ℕ) (c v : ℚ) : (flatBars n c v).length = n := by
  simp [flatBars]

lemma lastN_replicate (k n : ℕ) (c : ℚ) (h : k ≤ n) :
    lastN k (List.replicate n c) = List.replicate k c := by
  simp only [lastN, List.length_replicate, List.drop_replicate]
  congr 1
  omega

lemma sum_replicate_q (k : ℕ) (c : ℚ) : (List.replicate k c).sum = k * c := by
  simp [List.sum_replicate]

lemma negIdx_replicate (k n : ℕ) (c : ℚ) (h1 : 1 ≤ k) (h2 : k ≤ n) :
    negIdx (List.replicate n c) k = c := by
  have h : n - k < n := by omega
  simp [negIdx, List.getD, List.getElem?_replicate, h]

lemma pyMax_replicate (k : ℕ) (c : ℚ) (h : 1 ≤ k) : pyMax (List.replicate k c) = c := by
  obtain ⟨m, rfl⟩ : ∃ m, k = m + 1 := ⟨k - 1, by omega⟩
  rw [List.replicate_succ]
  show (List.replicate m c).foldl max c = c
  induction m with
  | zero => rfl
  | succ m ih => rw [List.replicate_succ]; simpa using ih

lemma pyMin_replicate (k : ℕ) (c : ℚ) (h : 1 ≤ k) : pyMin (List.replicate k c) = c := by
  obtain ⟨m, rfl⟩ : ∃ m, k = m + 1 := ⟨k - 1, by omega⟩
  rw [List.replicate_succ]
  show (List.replicate m c).foldl min c = c
  induction m with
  | zero => rfl
  | succ m ih => rw [List.replicate_succ]; simpa using ih

lemma sma_replicate (n p : ℕ) (c : ℚ) (h1 : 1 ≤ p) (h2 : p ≤ n) :
    sma (List.replicate n c) p = some c := by
  have hp : ¬(n < p ∨ p = 0) := by omega
  simp only [sma, List.length_replicate, hp, if_false, lastN_replicate p n c h2,
    sum_replicate_q]
  congr 1
  field_simp

lemma ema_foldl_const (k c : ℚ) (m : ℕ) :
    (List.replicate m c).foldl (fun e price => price * k + e * (1 - k)) c = c := by
  induction m with
  | zero => rfl
  | succ m ih =>
    rw [List.replicate_succ, List.foldl_cons]
    have : c * k + c * (1 - k) = c := by ring
    rw [this, ih]

lemma ema_replicate (n p : ℕ) (c : ℚ) (h1 : 1 ≤ p) (h2 : p ≤ n) :
    ema (List.replicate n c) p = some c := by
  have hp : ¬(n < p ∨ p = 0) := by omega
  obtain ⟨m, rfl⟩ : ∃ m, n = m + 1 := ⟨n - 1, by omega⟩
  rw [List.replicate_succ]
  simp only [ema, List.length_cons, List.length_replicate, hp, if_false]
  exact congrArg some (ema_foldl_const _ c m)

lemma weights_sum_pos (p : ℕ) (h : 1 ≤ p) :
    0 < ((List.range p).map (fun i : ℕ => (i : ℚ) + 1)).sum := by
  apply List.sum_pos
  · intro x hx
    simp only [List.mem_map, List.mem_range] at hx
    obtain ⟨i, _, rfl⟩ := hx
    have : (0 : ℚ) ≤ (i : ℚ) := Nat.cast_nonneg i
    linarith
  · apply List.ne_nil_of_length_pos
    simp only [List.length_map, List.length_range]
    omega

lemma zipWith_mul_replicate_right (ws : List ℚ) (p : ℕ) (c : ℚ) (h : ws.length ≤ p) :
    List.zipWith (fun w x => w * x) ws (List.replicate p c) = ws.map (fun w => w * c) := by
  induction ws generalizing p with
  | nil => simp
  | cons w ws ih =>
    obtain ⟨q, rfl⟩ : ∃ q, p = q + 1 := ⟨p - 1, by simp at h; omega⟩
    rw [List.replicate_succ]
    simp only [List.zipWith_cons_cons, List.map_cons]
    rw [ih q (by simpa using h)]

lemma sum_map_mul_const (l : List ℚ) (c : ℚ) : (l.map (fun w => w * c)).sum = l.sum * c := by
  induction l with
  | nil => simp
  | cons x xs ih => simp only [List.map_cons, List.sum_cons, ih]; ring

lemma wma_replicate (n p : ℕ) (c : ℚ) (h1 : 1 ≤ p) (h2 : p ≤ n) :
    wma (List.replicate n c) p = some c := by
  have hp : ¬(n < p ∨ p = 0) := by omega
  simp only [wma, List.length_replicate, hp, if_false, lastN_replicate p n c h2]
  rw [zipWith_mul_replicate_right _ p c (by simp)]
  congr 1
  rw [sum_map_mul_const]
  have hw := weights_sum_pos p h1
  rw [mul_comm, mul_div_assoc, div_self (ne_of_gt hw), mul_one]

lemma diffs_replicate (n : ℕ) (c : ℚ) : diffs (List.replicate n c) = List.replicate (n - 1) 0 := by
  simp only [diffs, List.drop_replicate, List.zipWith_replicate, sub_self]
  congr 1
  omega

lemma gainsOf_replicate (n : ℕ) (c : ℚ) :
    gainsOf (List.replicate n c) = List.replicate (n - 1) 0 := by
  simp [gainsOf, diffs_replicate]

lemma lossesOf_replicate (n : ℕ) (c : ℚ) :
    lossesOf (List.replicate n c) = List.replicate (n - 1) 0 := by
  simp [lossesOf, diffs_replicate]

lemma rsi_series_replicate (n : ℕ) (c : ℚ) (h : 15 ≤ n) :
    rsi_series (List.replicate n c) 14 = some 100 := by
  have hp : ¬((List.replicate n c).length < 14 + 1) := by simp; omega
  simp only [rsi_series, hp, if_false, lossesOf_replicate,
    lastN_replicate 14 (n - 1) (0 : ℚ) (by omega), sum_replicate_q]
  norm_num

lemma stoch_k_replicate (n : ℕ) (c : ℚ) (h : 14 ≤ n) :
    stoch_k (List.replicate n c) (List.replicate n c) (List.replicate n c) 14 3 = some 50 := by
  have hp : ¬((List.replicate n c).length < 14) := by simp; omega
  simp only [stoch_k, hp, if_false, lastN_replicate 14 n c (by omega),
    pyMax_replicate 14 c (by omega), pyMin_replicate 14 c (by omega)]
  norm_num

lemma ratSqrt_zero : ratSqrt 0 = 0 := by
  simp [ratSqrt]

lemma stddev_replicate (n p : ℕ) (c : ℚ) (h1 : 2 ≤ p) (h2 : p ≤ n) :
    stddev (List.replicate n c) p = some 0 := by
  have hp : ¬(n < p ∨ p ≤ 1) := by omega
  have hpq : (p : ℚ) ≠ 0 := by positivity
  simp only [stddev, List.length_replicate, hp, if_false, lastN_replicate p n c h2,
    sum_replicate_q]
  have hm : (p : ℚ) * c / (p : ℚ) = c := by field_simp
  rw [hm]
  simp [ratSqrt_zero]

lemma cci_replicate (n : ℕ) (c : ℚ) (h : 20 ≤ n) :
    cci (List.replicate n c) 20 = none := by
  have hp : ¬((List.replicate n c).length < 20) := by simp; omega
  rw [cci, if_neg hp, sma_replicate n 20 c (by omega) h, stddev_replicate n 20 c (by omega) h]
  simp

lemma dmLists_replicate (n : ℕ) (c : ℚ) :
    dmLists (List.replicate n c) (List.replicate n c) = List.replicate (n - 1) (0, 0) := by
  induction n with
  | zero => rfl
  | succ m ih =>
    match m, ih with
    | 0, _ => rfl
    | k + 1, ih =>
      rw [List.replicate_succ, List.replicate_succ (n := k)]
      rw [show dmLists (c :: c :: List.replicate k c) (c :: c :: List.replicate k c) =
        (if c - c > c - c ∧ c - c > 0 then c - c else 0,
         if c - c > c - c ∧ c - c > 0 then c - c else 0) ::
          dmLists (c :: List.replicate k c) (c :: List.replicate k c) from rfl]
      rw [← List.replicate_succ (n := k)]
      rw [ih]
      simp [List.replicate_succ]

lemma true_range_replicate (n : ℕ) (c : ℚ) :
    true_range (List.replicate n c) (List.replicate n c) (List.replicate n c) =
      List.replicate (n - 1) 0 := by
  induction n with
  | zero => rfl
  | succ m ih =>
    match m, ih with
    | 0, _ => rfl
    | k + 1, ih =>
      rw [List.replicate_succ, List.replicate_succ (n := k)]
      rw [show true_range (c :: c :: List.replicate k c) (c :: c :: List.replicate k c)
          (c :: c :: List.replicate k c) =
        max (c - c) (max |c - c| |c - c|) ::
          true_range (c :: List.replicate k c) (c :: List.replicate k c)
            (c :: List.replicate k c) from rfl]
      rw [← List.replicate_succ (n := k)]
      rw [ih]
      simp [List.replicate_succ]

lemma rma_foldl_zero (a : ℚ) (m : ℕ) :
    (List.replicate m (0 : ℚ)).foldl (fun val x => a * x + (1 - a) * val) 0 = 0 := by
  induction m with
  | zero => rfl
  | succ m ih =>
    rw [List.replicate_succ, List.foldl_cons]
    have : a * 0 + (1 - a) * 0 = 0 := by ring
    rw [this, ih]

lemma rma_replicate_zero (m p : ℕ) (h1 : 1 ≤ p) (h2 : p ≤ m) :
    rma (List.replicate m (0 : ℚ)) p = some 0 := by
  have hp : ¬((List.replicate m (0 : ℚ)).length < p) := by simp; omega
  obtain ⟨k, rfl⟩ : ∃ k, m = k + 1 := ⟨m - 1, by omega⟩
  rw [List.replicate_succ]
  simp only [rma, List.length_cons, List.length_replicate] at hp ⊢
  rw [if_neg hp]
  exact congrArg some (rma_foldl_zero _ k)

lemma adx_di_replicate (n : ℕ) (c : ℚ) (h : 16 ≤ n) :
    adx_di (List.replicate n c) (List.replicate n c) (List.replicate n c) 14 = none := by
  have hp : ¬((List.replicate n c).length < 14 + 2) := by simp; omega
  rw [adx_di, if_neg hp]
  rw [show (dmLists (List.replicate n c) (List.replicate n c)) = List.replicate (n - 1) (0, 0)
    from dmLists_replicate n c]
  rw [true_range_replicate n c]
  have hlen : ¬((List.replicate (n - 1) (0 : ℚ)).length < 14) := by simp; omega
  rw [if_neg hlen]
  have hfst : (List.replicate (n - 1) ((0 : ℚ), (0 : ℚ))).map Prod.fst =
      List.replicate (n - 1) (0 : ℚ) := by simp
  have hsnd : (List.replicate (n - 1) ((0 : ℚ), (0 : ℚ))).map Prod.snd =
      List.replicate (n - 1) (0 : ℚ) := by simp
  rw [hfst, hsnd, rma_replicate_zero (n - 1) 14 (by omega) (by omega)]
  simp

lemma ao_value_replicate (n : ℕ) (c : ℚ) (h : 34 ≤ n) :
    ao_value (List.replicate n c) (List.replicate n c) = some 0 := by
  rw [ao_value]
  have hzip : List.zipWith (fun h l => (h + l) / 2) (List.replicate n c) (List.replicate n c) =
      List.replicate n ((c + c) / 2) := by
    rw [List.zipWith_replicate]; simp
  rw [hzip]
  rw [sma_replicate n 5 _ (by omega) (by omega), sma_replicate n 34 _ (by omega) (by omega)]
  simp

lemma macdAux_replicate (m : ℕ) (c : ℚ) :
    macdAux (List.replicate m c) c c = List.replicate m 0 := by
  induction m with
  | zero => rfl
  | succ k ih =>
    rw [List.replicate_succ, macdAux]
    have h12 : c * (2 / 13) + c * (1 - 2 / 13) = c := by ring
    have h26 : c * (2 / 27) + c * (1 - 2 / 27) = c := by ring
    rw [List.replicate_succ (n := k)]
    simp only [h12, h26, sub_self, ih]

lemma macdSeries_replicate (n : ℕ) (c : ℚ) (h : 1 ≤ n) :
    macdSeries (List.replicate n c) = List.replicate n 0 := by
  obtain ⟨k, rfl⟩ : ∃ k, n = k + 1 := ⟨n - 1, by omega⟩
  rw [List.replicate_succ, macdSeries, ← List.replicate_succ, macdAux_replicate]

lemma negIdx_replicate_zero (n k : ℕ) (h1 : 1 ≤ k) (h2 : k ≤ n) :
    negIdx (List.replicate n (0 : ℚ)) k = 0 := negIdx_replicate k n 0 h1 h2

lemma macd_hist_replicate (n : ℕ) (c : ℚ) (h : 26 ≤ n) :
    macd_hist (List.replicate n c) = some (0, 0, (0, some 0)) := by
  rw [macd_hist, ema_replicate n 12 c (by omega) (by omega),
    ema_replicate n 26 c (by omega) (by omega)]
  simp only
  rw [macdSeries_replicate n c (by omega), ema_replicate n 9 0 (by omega) (by omega)]
  have hlen : (List.replicate n (0 : ℚ)).length > 10 := by simp; omega
  simp only [hlen, if_true, List.dropLast_replicate]
  rw [ema_replicate (n - 1) 9 0 (by omega) (by omega)]
  rw [negIdx_replicate_zero n 1 (by omega) (by omega),
    negIdx_replicate_zero n 2 (by omega) (by omega)]
  simp

lemma rollRsi_replicate_zero (m rlen i : ℕ) (h : 1 ≤ rlen) :
    rollRsi (List.replicate m 0) (List.replicate m 0) rlen i = 100 := by
  simp [rollRsi, List.drop_replicate, List.take_replicate, sum_replicate_q]

lemma stoch_rsi_k_replicate (n : ℕ) (c : ℚ) (h : 28 ≤ n) :
    stoch_rsi_k (List.replicate n c) 14 14 3 = some 50 := by
  have hp : ¬((List.replicate n c).length < 14 + 14) := by simp; omega
  rw [stoch_rsi_k, if_neg hp]
  simp only [gainsOf_replicate, lossesOf_replicate, List.length_replicate]
  have hvals : (List.range (n - 14)).map (fun j =>
      rollRsi (List.replicate (n - 1) 0) (List.replicate (n - 1) 0) 14 (14 + j)) =
      List.replicate (n - 14) 100 := by
    rw [show List.replicate (n - 14) (100 : ℚ) =
      List.replicate (List.range (n - 14)).length (100 : ℚ) by simp]
    rw [← List.map_const']
    apply List.map_congr_left
    intro j _
    exact rollRsi_replicate_zero (n - 1) 14 (14 + j) (by omega)
  rw [hvals]
  have hlen2 : ¬((List.replicate (n - 14) (100 : ℚ)).length < 14) := by simp; omega
  rw [if_neg hlen2]
  rw [lastN_replicate 14 (n - 14) 100 (by omega), pyMax_replicate 14 100 (by omega),
    pyMin_replicate 14 100 (by omega)]
  simp

lemma williams_r_replicate (n : ℕ) (c : ℚ) (h : 14 ≤ n) :
    williams_r (List.replicate n c) (List.replicate n c) (List.replicate n c) 14 = some 0 := by
  have hp : ¬((List.replicate n c).length < 14) := by simp; omega
  rw [williams_r, if_neg hp, lastN_replicate 14 n c (by omega),
    pyMax_replicate 14 c (by omega), pyMin_replicate 14 c (by omega)]
  simp

lemma emaSeriesAux_replicate (m : ℕ) (c k : ℚ) :
    emaSeriesAux (List.replicate m c) c k = List.replicate m c := by
  induction m with
  | zero => rfl
  | succ q ih =>
    rw [List.replicate_succ, emaSeriesAux]
    have hc : c * k + c * (1 - k) = c := by ring
    simp only [hc, ih, List.replicate_succ]

lemma emaSeriesK_replicate (n : ℕ) (c k : ℚ) (h : 1 ≤ n) :
    emaSeriesK (List.replicate n c) k = List.replicate n c := by
  obtain ⟨q, rfl⟩ : ∃ q, n = q + 1 := ⟨n - 1, by omega⟩
  rw [List.replicate_succ, emaSeriesK, ← List.replicate_succ, emaSeriesAux_replicate]

lemma bbSeries_replicate (n : ℕ) (c : ℚ) :
    bbSeries (List.replicate n c) (List.replicate n c) (List.replicate n c) =
      List.replicate n 0 := by
  induction n with
  | zero => rfl
  | succ q ih =>
    rw [List.replicate_succ, bbSeries]
    rw [List.replicate_succ (n := q)]
    simp only [ih]
    norm_num

lemma clsBullBear_replicate (n : ℕ) (c : ℚ) (h : 30 ≤ n) :
    clsBullBear (List.replicate n c) (List.replicate n c) (List.replicate n c) =
      some .sell := by
  rw [clsBullBear, ema_replicate n 13 c (by omega) (by omega)]
  have hlen : (List.replicate n c).length ≥ 30 := by simp; omega
  simp only [hlen, if_true]
  rw [emaSeriesK_replicate n c _ (by omega), bbSeries_replicate n c,
    sma_replicate n 30 0 (by omega) (by omega)]
  simp

lemma calcBpTr_replicate (n i : ℕ) (c : ℚ) (hi : i < n) :
    calcBpTr (List.replicate n c) (List.replicate n c) (List.replicate n c) i = (0, 0) := by
  have h1 : (List.replicate n c).getD i 0 = c := by
    simp [List.getD, List.getElem?_replicate, hi]
  have h2 : (List.replicate n c).getD (i - 1) 0 = c := by
    have : i - 1 < n := by omega
    simp [List.getD, List.getElem?_replicate, this]
  rw [calcBpTr, h1, h2]
  simp

lemma avgBpTr_replicate (n len : ℕ) (c : ℚ) (h1 : 1 ≤ len) (h2 : len ≤ n) :
    avgBpTr (List.replicate n c) (List.replicate n c) (List.replicate n c) len = 0 := by
  rw [avgBpTr]
  have hmem : ∀ i ∈ (List.range len).map
      (fun j => (List.replicate n c).length - len + j), i < n := by
    intro i hi
    simp only [List.mem_map, List.mem_range, List.length_replicate] at hi
    obtain ⟨j, hj, rfl⟩ := hi
    omega
  have hbp : ((List.range len).map
      (fun j => (List.replicate n c).length - len + j)).map
      (fun i => (calcBpTr (List.replicate n c) (List.replicate n c)
        (List.replicate n c) i).1) = List.replicate len 0 := by
    rw [show List.replicate len (0 : ℚ) = List.replicate ((List.range len).map
      (fun j => (List.replicate n c).length - len + j)).length (0 : ℚ) by simp]
    rw [← List.map_const']
    apply List.map_congr_left
    intro i hi
    rw [calcBpTr_replicate n i c (hmem i hi)]
  have htr : ((List.range len).map
      (fun j => (List.replicate n c).length - len + j)).map
      (fun i => (calcBpTr (List.replicate n c) (List.replicate n c)
        (List.replicate n c) i).2) = List.replicate len 0 := by
    rw [show List.replicate len (0 : ℚ) = List.replicate ((List.range len).map
      (fun j => (List.replicate n c).length - len + j)).length (0 : ℚ) by simp]
    rw [← List.map_const']
    apply List.map_congr_left
    intro i hi
    rw [calcBpTr_replicate n i c (hmem i hi)]
  simp only at hbp htr ⊢
  rw [hbp, htr]
  simp

lemma ultimate_osc_replicate (n : ℕ) (c : ℚ) (h : 29 ≤ n) :
    ultimate_osc (List.replicate n c) (List.replicate n c) (List.replicate n c) 7 14 28 =
      some 0 := by
  have hp : ¬((List.replicate n c).length < 28 + 1) := by simp; omega
  rw [ultimate_osc, if_neg hp, avgBpTr_replicate n 7 c (by omega) (by omega),
    avgBpTr_replicate n 14 c (by omega) (by omega),
    avgBpTr_replicate n 28 c (by omega) (by omega)]
  norm_num

lemma ichimoku_baseline_replicate (n : ℕ) (c : ℚ) (h : 26 ≤ n) :
    ichimoku_baseline (List.replicate n c) (List.replicate n c) 26 = some c := by
  have hp : ¬((List.replicate n c).length < 26 ∨ (List.replicate n c).length < 26) := by
    simp; omega
  rw [ichimoku_baseline, if_neg hp, lastN_replicate 26 n c (by omega),
    pyMax_replicate 26 c (by omega), pyMin_replicate 26 c (by omega)]
  norm_num

lemma vwma_replicate (n : ℕ) (c v : ℚ) (h : 20 ≤ n) :
    vwma (List.replicate n c) (List.replicate n v) 20 =
      if v = 0 then none else some c := by
  have hp : ¬((List.replicate n c).length < 20 ∨ (List.replicate n v).length < 20 ∨
      (20 : ℕ) = 0) := by simp; omega
  by_cases hv : v = 0
  · subst hv
    simp [vwma, hp, lastN_replicate 20 n c (by omega),
      lastN_replicate 20 n (0 : ℚ) (by omega), List.zipWith_replicate, sum_replicate_q]
  · rw [if_neg hv]
    have hvv : ((20 : ℕ) : ℚ) * v ≠ 0 := by
      intro hc
      rcases mul_eq_zero.mp hc with h20 | hv0
      · norm_num at h20
      · exact hv hv0
    simp only [vwma, hp, if_false, lastN_replicate 20 n c (by omega),
      lastN_replicate 20 n v (by omega), List.zipWith_replicate, sum_replicate_q,
      min_self, hvv, ite_false]
    congr 1
    field_simp
    ring

lemma hma_replicate (n : ℕ) (c : ℚ) (h : 9 ≤ n) :
    hma (List.replicate n c) 9 = some c := by
  have hp : ¬((9 : ℕ) = 0 ∨ (List.replicate n c).length < 9) := by simp; omega
  have hhalf : max 1 (9 / 2 : ℕ) = 4 := by norm_num
  have hsqrt : max 1 (Nat.sqrt 9) = 3 := by
    have h9 : Nat.sqrt 9 = 3 := by
      rw [show (9 : ℕ) = 3 * 3 from rfl, Nat.sqrt_eq 3]
    rw [h9]
    norm_num
  have happ : List.replicate (n - 1) c ++ [c] = List.replicate n c := by
    rw [← List.replicate_succ']
    congr 1
    omega
  simp only [hma, hp, if_false, hhalf, hsqrt, wma_replicate n 4 c (by omega) (by omega),
    wma_replicate n 9 c (by omega) h, List.dropLast_replicate,
    show (2 : ℚ) * c - c = c from by ring, happ,
    wma_replicate n 3 c (by omega) (by omega)]

lemma momVal_replicate (n : ℕ) (c : ℚ) (h : 11 ≤ n) :
    momVal (List.replicate n c) = 0 := by
  have hl : (List.replicate n c).length > 10 := by simp; omega
  rw [momVal, if_pos hl, negIdx_replicate 1 n c (by omega) (by omega),
    negIdx_replicate 11 n c (by omega) (by omega), sub_self]

lemma oscSignals_flat (n : ℕ) (c v : ℚ) (h : 50 ≤ n) :
    oscSignals (flatBars n c v) 100 50 =
      [some .sell, none, none, none, none, some .sell, some .sell, none,
       some .sell, some .sell, some .buy] := by
  simp only [oscSignals, closesOf_flat, highsOf_flat, lowsOf_flat,
    cci_replicate n c (by omega), adx_di_replicate n c (by omega),
    ao_value_replicate n c (by omega), momVal_replicate n c (by omega),
    macd_hist_replicate n c (by omega), stoch_rsi_k_replicate n c (by omega),
    williams_r_replicate n c (by omega), clsBullBear_replicate n c (by omega),
    ultimate_osc_replicate n c (by omega)]
  norm_num [clsRsi, clsStoch, clsCci, clsAdx, clsAo, clsMom, clsMacd, clsStochRsi,
    clsWilliams, clsUo]

lemma maCandidates_flat200 (c v : ℚ) :
    maCandidates (flatBars 200 c v) =
      [some c, some c, some c, some c, some c, some c, some c, some c, some c, some c,
       some c, some c, some c, some c, some c, if v = 0 then none else some c, some c] := by
  simp only [maCandidates, closesOf_flat, highsOf_flat, lowsOf_flat, volumesOf_flat,
    ema_replicate 200 5 c (by omega) (by omega), sma_replicate 200 5 c (by omega) (by omega),
    ema_replicate 200 10 c (by omega) (by omega), sma_replicate 200 10 c (by omega) (by omega),
    ema_replicate 200 21 c (by omega) (by omega), sma_replicate 200 20 c (by omega) (by omega),
    ema_replicate 200 30 c (by omega) (by omega), sma_replicate 200 30 c (by omega) (by omega),
    ema_replicate 200 55 c (by omega) (by omega), sma_replicate 200 50 c (by omega) (by omega),
    ema_replicate 200 100 c (by omega) (by omega),
    sma_replicate 200 100 c (by omega) (by omega),
    ema_replicate 200 200 c (by omega) (by omega),
    sma_replicate 200 200 c (by omega) (by omega),
    ichimoku_baseline_replicate 200 c (by omega), vwma_replicate 200 c v (by omega),
    hma_replicate 200 c (by omega)]

lemma maTally_flat200 (c v : ℚ) :
    maTally c (maCandidates (flatBars 200 c v)) =
      if v = 0 then (0, 16, 16) else (0, 17, 17) := by
  rw [maCandidates_flat200]
  by_cases hv : v = 0
  · simp [hv, maTally, lt_irrefl]
  · simp [hv, maTally, lt_irrefl]

lemma pivotSignals_flat (c v : ℚ) :
    pivotSignals (flatBar c v) c = [none, none, none, none] := by
  have h3 : (c + c + c) / 3 = c := by ring
  have h4 : (c + c + 2 * c) / 4 = c := by ring
  simp only [pivotSignals, flatBar, h3, h4, sub_self, zero_mul, add_zero, sub_zero,
    mul_zero]
  norm_num [clsPivot]

/-- The verdict the scorer produces on any flat 200-bar series: sixteen or
seventeen moving averages (depending on whether the volume is zero) all
classify Sell, the oscillators split one Buy / five Sell, the pivots are
all neutral, and the ordered rule lands on STRONG SELL. -/
def flatVerdict200 (v : ℚ) : CompositeVerdict :=
  if v = 0 then
    { oscBuy := 1, oscSell := 5, totalOsc := 11, maBuy := 0, maSell := 16, maPossible := 16,
      pivotBuy := 0, pivotSell := 0, pivotPossible := 4, buyTotal := 1, sellTotal := 21,
      neutralTotal := 9, totalPossible := 31, buyPct := 100 / 31, sellPct := 2100 / 31,
      neutralPct := 900 / 31, buyPoint := 10 / 31, sellPoint := 210 / 31,
      overall := .strongSell }
  else
    { oscBuy := 1, oscSell := 5, totalOsc := 11, maBuy := 0, maSell := 17, maPossible := 17,
      pivotBuy := 0, pivotSell := 0, pivotPossible := 4, buyTotal := 1, sellTotal := 22,
      neutralTotal := 9, totalPossible := 32, buyPct := 25 / 8, sellPct := 275 / 4,
      neutralPct := 225 / 8, buyPoint := 5 / 16, sellPoint := 55 / 8,
      overall := .strongSell }

lemma getD_flatBars (n k : ℕ) (c v : ℚ) (h : k < n) :
    (flatBars n c v).getD k default = flatBar c v := by
  simp [flatBars, List.getD, List.getElem?_replicate, h]

lemma countCls_buy_oscFlat :
    countCls .buy [some .sell, none, none, none, none, some .sell, some .sell, none,
      some .sell, some .sell, some .buy] = 1 := by decide

lemma countCls_sell_oscFlat :
    countCls .sell [some .sell, none, none, none, none, some .sell, some .sell, none,
      some .sell, some .sell, some .buy] = 5 := by decide

lemma countCls_buy_none4 : countCls .buy [none, none, none, none] = 0 := by decide

lemma countCls_sell_none4 : countCls .sell [none, none, none, none] = 0 := by decide

lemma scoreBody_flat200 (c v : ℚ) :
    scoreBody (flatBars 200 c v) 100 50 = flatVerdict200 v := by
  have hcur : negIdx (closesOf (flatBars 200 c v)) 1 = c := by
    rw [closesOf_flat]
    exact negIdx_replicate 1 200 c (by omega) (by omega)
  have hlen : (flatBars 200 c v).length ≥ 2 := by rw [length_flatBars]; omega
  have hprev : (flatBars 200 c v).getD ((flatBars 200 c v).length - 2) default =
      flatBar c v := by
    rw [length_flatBars]
    exact getD_flatBars 200 198 c v (by omega)
  rw [scoreBody]
  simp only [hcur, oscSignals_flat 200 c v (by omega), maTally_flat200, hlen, if_true,
    hprev, pivotSignals_flat, flatVerdict200, countCls_buy_oscFlat, countCls_sell_oscFlat,
    countCls_buy_none4, countCls_sell_none4]
  by_cases hv : v = 0
  · simp only [hv, if_true, ite_true]
    norm_num [overallSignal]
  · simp only [hv, if_false, ite_false]
    norm_num [overallSignal]

lemma scoreSeries_flat200 (c v : ℚ) :
    scoreSeries (flatBars 200 c v) = .ok (flatVerdict200 v) := by
  have hlen : ¬((flatBars 200 c v).length < 50) := by rw [length_flatBars]; omega
  rw [scoreSeries, if_neg hlen]
  rw [show rsi_series (closesOf (flatBars 200 c v)) 14 = some 100 by
    rw [closesOf_flat]; exact rsi_series_replicate 200 c (by omega)]
  rw [show stoch_k (highsOf (flatBars 200 c v)) (lowsOf (flatBars 200 c v))
      (closesOf (flatBars 200 c v)) 14 3 = some 50 by
    rw [closesOf_flat, highsOf_flat, lowsOf_flat]
    exact stoch_k_replicate 200 c (by omega)]
  exact congrArg Except.ok (scoreBody_flat200 c v)

/-! Generic helper lemmas about the scorer on arbitrary input. -/

lemma length_closesOf (bars : List Bar) : (closesOf bars).length = bars.length := by
  simp [closesOf]

lemma rsi_series_isSome (data : List ℚ) (h : 15 ≤ data.length) :
    ∃ r, rsi_series data 14 = some r := by
  rw [rsi_series, if_neg (by omega)]
  dsimp only
  split_ifs
  · exact ⟨_, rfl⟩
  · exact ⟨_, rfl⟩

lemma stoch_k_isSome (highs lows closes : List ℚ) (h : 14 ≤ closes.length) :
    ∃ s, stoch_k highs lows closes 14 3 = some s := by
  rw [stoch_k, if_neg (by omega)]
  exact ⟨_, rfl⟩

lemma ema_isSome (data : List ℚ) (p : ℕ) (h1 : 1 ≤ p) (h2 : p ≤ data.length) :
    ∃ e, ema data p = some e := by
  obtain ⟨d0, rest, rfl⟩ : ∃ d0 rest, data = d0 :: rest := by
    cases data with
    | nil => simp at h2; omega
    | cons d0 rest => exact ⟨d0, rest, rfl⟩
  rw [ema, if_neg (by omega)]
  exact ⟨_, rfl⟩

lemma wma_isSome (data : List ℚ) (p : ℕ) (h1 : 1 ≤ p) (h2 : p ≤ data.length) :
    ∃ w, wma data p = some w := by
  rw [wma, if_neg (by omega)]
  exact ⟨_, rfl⟩

lemma scoreSeries_ok_inv (bars : List Bar) (v : CompositeVerdict)
    (h : scoreSeries bars = .ok v) :
    ∃ rsi stoch, rsi_series (closesOf bars) 14 = some rsi ∧
      stoch_k (highsOf bars) (lowsOf bars) (closesOf bars) 14 3 = some stoch ∧
      v = scoreBody bars rsi stoch := by
  by_cases hl : bars.length < 50
  · rw [scoreSeries, if_pos hl] at h
    exact absurd h (by simp)
  · rw [scoreSeries, if_neg hl] at h
    rcases hr : rsi_series (closesOf bars) 14 with _ | rsi <;>
      rcases hs : stoch_k (highsOf bars) (lowsOf bars) (closesOf bars) 14 3 with _ | stoch <;>
      rw [hr, hs] at h
    · exact absurd h (by simp)
    · exact absurd h (by simp)
    · exact absurd h (by simp)
    · refine ⟨rsi, stoch, rfl, rfl, ?_⟩
      have h2 : (Except.ok (scoreBody bars rsi stoch) : Except TAError CompositeVerdict) =
        Except.ok v := h
      injection h2 with h3
      exact h3.symm

lemma scoreBody_overall_eq (bars : List Bar) (rsi stoch : ℚ) :
    (scoreBody bars rsi stoch).overall =
      overallSignalSpec (scoreBody bars rsi stoch).buyPct (scoreBody bars rsi stoch).sellPct
        (scoreBody bars rsi stoch).oscBuy (scoreBody bars rsi stoch).oscSell
        (scoreBody bars rsi stoch).maBuy (scoreBody bars rsi stoch).maSell
        (scoreBody bars rsi stoch).pivotBuy (scoreBody bars rsi stoch).pivotSell := rfl

lemma scoreBody_sum (bars : List Bar) (rsi stoch : ℚ) :
    (scoreBody bars rsi stoch).buyTotal + (scoreBody bars rsi stoch).sellTotal +
      (scoreBody bars rsi stoch).neutralTotal = (scoreBody bars rsi stoch).totalPossible := by
  simp only [scoreBody]
  ring

lemma maTally_foldl_poss (current : ℚ) (vals : List (Option ℚ)) :
    ∀ a b p : ℤ, (vals.foldl (fun acc val =>
      match val with
      | none => acc
      | some v =>
        if current > v then (acc.1 + 1, acc.2.1, acc.2.2 + 1)
        else (acc.1, acc.2.1 + 1, acc.2.2 + 1)) (a, b, p)).2.2 =
      p + (vals.countP (fun x => x.isSome) : ℤ) := by
  induction vals with
  | nil => intro a b p; simp
  | cons val rest ih =>
    intro a b p
    cases val with
    | none => simp only [List.foldl_cons]; simp [ih, List.countP_cons]
    | some x =>
      simp only [List.foldl_cons]
      by_cases hc : current > x
      · simp only [hc, if_true]
        rw [ih]
        simp [List.countP_cons]
        ring
      · simp only [hc, if_false]
        rw [ih]
        simp [List.countP_cons]
        ring

lemma maTally_foldl_sum (current : ℚ) (vals : List (Option ℚ)) :
    ∀ a b p : ℤ,
      (vals.foldl (fun acc val =>
        match val with
        | none => acc
        | some v =>
          if current > v then (acc.1 + 1, acc.2.1, acc.2.2 + 1)
          else (acc.1, acc.2.1 + 1, acc.2.2 + 1)) (a, b, p)).1 +
      (vals.foldl (fun acc val =>
        match val with
        | none => acc
        | some v =>
          if current > v then (acc.1 + 1, acc.2.1, acc.2.2 + 1)
          else (acc.1, acc.2.1 + 1, acc.2.2 + 1)) (a, b, p)).2.1 =
      a + b + (vals.countP (fun x => x.isSome) : ℤ) := by
  induction vals with
  | nil => intro a b p; simp
  | cons val rest ih =>
    intro a b p
    cases val with
    | none => simp only [List.foldl_cons]; simp [ih, List.countP_cons]
    | some x =>
      simp only [List.foldl_cons]
      by_cases hc : current > x
      · simp only [hc, if_true]
        rw [ih]
        simp [List.countP_cons]
        ring
      · simp only [hc, if_false]
        rw [ih]
        simp [List.countP_cons]
        ring

lemma maTally_poss_eq_countP (current : ℚ) (vals : List (Option ℚ)) :
    (maTally current vals).2.2 = (vals.countP (fun x => x.isSome) : ℤ) := by
  rw [maTally]
  simpa using maTally_foldl_poss current vals 0 0 0

lemma maTally_buy_add_sell (current : ℚ) (vals : List (Option ℚ)) :
    (maTally current vals).1 + (maTally current vals).2.1 =
      (vals.countP (fun x => x.isSome) : ℤ) := by
  rw [maTally]
  simpa using maTally_foldl_sum current vals 0 0 0

lemma maCandidates_length (bars : List Bar) : (maCandidates bars).length = 17 := by
  simp [maCandidates]

lemma sum_pos_mixed (l : List ℚ) (h0 : ∀ x ∈ l, 0 ≤ x) (hx : ∃ x ∈ l, 0 < x) :
    0 < l.sum := by
  induction l with
  | nil => obtain ⟨x, hm, _⟩ := hx; simp at hm
  | cons a t ih =>
    rw [List.sum_cons]
    obtain ⟨x, hm, hxp⟩ := hx
    rcases List.mem_cons.mp hm with rfl | hmt
    · have ht : 0 ≤ t.sum := List.sum_nonneg (fun y hy => h0 y (List.mem_cons_of_mem _ hy))
      linarith
    · have ha : 0 ≤ a := h0 a (List.mem_cons_self a t)
      have := ih (fun y hy => h0 y (List.mem_cons_of_mem _ hy)) ⟨x, hmt, hxp⟩
      linarith

lemma bbSeries_eq_zipWith (hs ls es : List ℚ) (h1 : hs.length ≤ es.length)
    (h2 : ls.length ≤ es.length) :
    bbSeries hs ls es = List.zipWith (fun h l => h - l) hs ls := by
  induction hs generalizing ls es with
  | nil => cases ls <;> cases es <;> rfl
  | cons h ht ih =>
    cases ls with
    | nil => cases es <;> rfl
    | cons l lt =>
      cases es with
      | nil => simp at h1
      | cons e et =>
        rw [bbSeries, List.zipWith_cons_cons]
        have harith : (h - e) - (l - e) = h - l := by ring
        rw [harith, ih lt et (by simpa using h1) (by simpa using h2)]

lemma emaSeriesAux_length (l : List ℚ) : ∀ e k, (emaSeriesAux l e k).length = l.length := by
  induction l with
  | nil => intro e k; rfl
  | cons p ps ih => intro e k; rw [emaSeriesAux]; simp [ih]

lemma emaSeriesK_length (closes : List ℚ) (k : ℚ) :
    (emaSeriesK closes k).length = closes.length := by
  cases closes with
  | nil => rfl
  | cons c0 rest => rw [emaSeriesK]; exact emaSeriesAux_length _ _ _

lemma zipWith_sub_highs_lows (bars : List Bar) :
    List.zipWith (fun h l => h - l) (highsOf bars) (lowsOf bars) =
      bars.map (fun b => b.hi - b.lo) := by
  induction bars with
  | nil => rfl
  | cons b bs ih =>
    have ih2 := ih
    simp only [highsOf, lowsOf] at ih2
    simp only [highsOf, lowsOf, List.map_cons, List.zipWith_cons_cons, ih2]

lemma length_highsOf (bars : List Bar) : (highsOf bars).length = bars.length := by
  simp [highsOf]

lemma length_lowsOf (bars : List Bar) : (lowsOf bars).length = bars.length := by
  simp [lowsOf]

/-! Claim theorems. -/

/-- Claim C1, counterexample: the claim says every flat (constant) 200-bar
OHLCV series yields an overall signal of NEUTRAL; on the concrete flat
series with every price 1 and volume 1 the scorer instead returns
STRONG SELL. -/
theorem flat_series_overall_not_neutral :
    (scoreSeries (flatBars 200 1 1)).map CompositeVerdict.overall =
      Except.ok Signal.strongSell ∧
    (scoreSeries (flatBars 200 1 1)).map CompositeVerdict.overall ≠
      Except.ok Signal.neutral := by
  rw [scoreSeries_flat200 1 1]
  have h1 : flatVerdict200 1 =
      { oscBuy := 1, oscSell := 5, totalOsc := 11, maBuy := 0, maSell := 17, maPossible := 17,
        pivotBuy := 0, pivotSell := 0, pivotPossible := 4, buyTotal := 1, sellTotal := 22,
        neutralTotal := 9, totalPossible := 32, buyPct := 25 / 8, sellPct := 275 / 4,
        neutralPct := 225 / 8, buyPoint := 5 / 16, sellPoint := 55 / 8,
        overall := .strongSell } := by
    rw [flatVerdict200, if_neg (by norm_num)]
  rw [h1]
  exact ⟨rfl, by simp [Except.map]⟩

/-- Claim C1, amended: for every flat (constant-price, constant-volume)
200-bar series, the indicators whose denominators vanish — CCI (zero
standard deviation) and ADX/DI (zero smoothed true range) — return absence
and are excluded from the tallies, the scorer still returns a verdict
without raising, but the overall signal is STRONG SELL, not NEUTRAL:
RSI pins at 100 (Sell), Momentum, MACD slope, Williams %R and Bull/Bear
Power all classify Sell on ties, and every moving average classifies Sell
because the price is not strictly above it. -/
theorem flat_series_excludes_zero_denominators_overall_strong_sell (c v : ℚ) :
    cci (closesOf (flatBars 200 c v)) 20 = none ∧
    adx_di (highsOf (flatBars 200 c v)) (lowsOf (flatBars 200 c v))
      (closesOf (flatBars 200 c v)) 14 = none ∧
    (scoreSeries (flatBars 200 c v)).map CompositeVerdict.overall =
      Except.ok Signal.strongSell := by
  refine ⟨?_, ?_, ?_⟩
  · rw [closesOf_flat]
    exact cci_replicate 200 c (by omega)
  · rw [highsOf_flat, lowsOf_flat, closesOf_flat]
    exact adx_di_replicate 200 c (by omega)
  · rw [scoreSeries_flat200 c v]
    by_cases hv : v = 0
    · rw [flatVerdict200, if_pos hv]; rfl
    · rw [flatVerdict200, if_neg hv]; rfl

/-- Claim C2: for every accepted series, the overall signal of the verdict
equals the spec's five ordered clauses (STRONG BUY, BUY, STRONG SELL, SELL,
NEUTRAL, first match winning) evaluated on the verdict's own percentages and
family tallies. -/
theorem overall_signal_follows_spec_order (bars : List Bar) (v : CompositeVerdict)
    (h : scoreSeries bars = .ok v) :
    v.overall = overallSignalSpec v.buyPct v.sellPct v.oscBuy v.oscSell v.maBuy v.maSell
      v.pivotBuy v.pivotSell := by
  obtain ⟨rsi, stoch, _, _, rfl⟩ := scoreSeries_ok_inv bars v h
  exact scoreBody_overall_eq bars rsi stoch

/-- Witness for claim C2 at the flat 200-bar series. -/
theorem overall_signal_follows_spec_order_witness :
    (flatVerdict200 1).overall = overallSignalSpec (flatVerdict200 1).buyPct
      (flatVerdict200 1).sellPct (flatVerdict200 1).oscBuy (flatVerdict200 1).oscSell
      (flatVerdict200 1).maBuy (flatVerdict200 1).maSell (flatVerdict200 1).pivotBuy
      (flatVerdict200 1).pivotSell :=
  overall_signal_follows_spec_order (flatBars 200 1 1) (flatVerdict200 1)
    (scoreSeries_flat200 1 1)

/-- Claim C3: a series of fewer than 50 bars is refused with the
InsufficientData failure and nothing is scored, while a series of exactly
50 bars is scored (some verdict is produced rather than a refusal). -/
theorem scorer_refuses_under_50_bars_accepts_at_50 (bars : List Bar) :
    (bars.length < 50 → scoreSeries bars = .error .insufficientData) ∧
    (bars.length = 50 → ∃ v, scoreSeries bars = .ok v) := by
  constructor
  · intro h
    rw [scoreSeries, if_pos h]
  · intro h
    obtain ⟨r, hr⟩ := rsi_series_isSome (closesOf bars) (by rw [length_closesOf]; omega)
    obtain ⟨s, hs⟩ := stoch_k_isSome (highsOf bars) (lowsOf bars) (closesOf bars)
      (by rw [length_closesOf]; omega)
    rw [scoreSeries, if_neg (by omega), hr, hs]
    exact ⟨_, rfl⟩

/-- Witness for claim C3: 49 flat bars are refused, 50 flat bars are
scored. -/
theorem scorer_refuses_under_50_bars_accepts_at_50_witness :
    scoreSeries (flatBars 49 1 1) = .error .insufficientData ∧
    ∃ v, scoreSeries (flatBars 50 1 1) = .ok v :=
  ⟨(scorer_refuses_under_50_bars_accepts_at_50 (flatBars 49 1 1)).1
      (by rw [length_flatBars]; omega),
   (scorer_refuses_under_50_bars_accepts_at_50 (flatBars 50 1 1)).2
      (length_flatBars 50 1 1)⟩

/-- Claim C4: for every accepted series the verdict's buy, sell and neutral
totals partition the total of possible indicators exactly. -/
theorem verdict_totals_partition (bars : List Bar) (v : CompositeVerdict)
    (h : scoreSeries bars = .ok v) :
    v.buyTotal + v.sellTotal + v.neutralTotal = v.totalPossible := by
  obtain ⟨rsi, stoch, _, _, rfl⟩ := scoreSeries_ok_inv bars v h
  exact scoreBody_sum bars rsi stoch

/-- Witness for claim C4 at the flat 200-bar series. -/
theorem verdict_totals_partition_witness :
    (flatVerdict200 1).buyTotal + (flatVerdict200 1).sellTotal +
      (flatVerdict200 1).neutralTotal = (flatVerdict200 1).totalPossible :=
  verdict_totals_partition (flatBars 200 1 1) (flatVerdict200 1) (scoreSeries_flat200 1 1)

/-- Claim C5: for every accepted series the moving-average family denominator
never exceeds 17, equals the number of candidates that returned a value
(absent candidates are excluded from the denominator), and every present
candidate lands in exactly one of the buy/sell counts (absent candidates are
excluded from the numerators too). -/
theorem ma_family_dynamic_denominator (bars : List Bar) (v : CompositeVerdict)
    (h : scoreSeries bars = .ok v) :
    v.maPossible ≤ 17 ∧ v.maBuy + v.maSell = v.maPossible ∧
    v.maPossible = ((maCandidates bars).countP (fun x => x.isSome) : ℤ) := by
  obtain ⟨rsi, stoch, _, _, rfl⟩ := scoreSeries_ok_inv bars v h
  have hposs : (scoreBody bars rsi stoch).maPossible =
      (maTally (negIdx (closesOf bars) 1) (maCandidates bars)).2.2 := rfl
  have hbuy : (scoreBody bars rsi stoch).maBuy =
      (maTally (negIdx (closesOf bars) 1) (maCandidates bars)).1 := rfl
  have hsell : (scoreBody bars rsi stoch).maSell =
      (maTally (negIdx (closesOf bars) 1) (maCandidates bars)).2.1 := rfl
  rw [hposs, hbuy, hsell, maTally_poss_eq_countP, maTally_buy_add_sell]
  refine ⟨?_, rfl, rfl⟩
  have hn : (maCandidates bars).countP (fun x => x.isSome) ≤ 17 := by
    rw [← maCandidates_length bars]
    exact List.countP_le_length _
  exact_mod_cast hn

/-- Witness for claim C5 at the flat 200-bar series. -/
theorem ma_family_dynamic_denominator_witness :
    (flatVerdict200 1).maPossible ≤ 17 ∧
    (flatVerdict200 1).maBuy + (flatVerdict200 1).maSell = (flatVerdict200 1).maPossible ∧
    (flatVerdict200 1).maPossible =
      ((maCandidates (flatBars 200 1 1)).countP (fun x => x.isSome) : ℤ) :=
  ma_family_dynamic_denominator (flatBars 200 1 1) (flatVerdict200 1)
    (scoreSeries_flat200 1 1)

/-- Claim C6, counterexample: the claim says `hma(data, n)` is WMA over
window `sqrt n` of the rolling derived series `2·WMA(n/2) − WMA(n)`; on the
11-bar series below with `n = 9` the code returns `1121/30` while the
standard Hull construction gives `377/10`. -/
theorem hma_differs_from_standard_hull :
    9 ≤ ([1, 2, 3, 4, 5, 6, 7, 8, 9, 10, 100] : List ℚ).length ∧
    hma [1, 2, 3, 4, 5, 6, 7, 8, 9, 10, 100] 9 ≠
      hmaSpec [1, 2, 3, 4, 5, 6, 7, 8, 9, 10, 100] 9 := by
  have hs : Nat.sqrt 9 = 3 := by rw [show (9 : ℕ) = 3 * 3 from rfl, Nat.sqrt_eq 3]
  have hcode : hma [1, 2, 3, 4, 5, 6, 7, 8, 9, 10, 100] 9 = some (1121 / 30) := by
    norm_num [hma, wma, lastN, List.range_succ, hs]
  have hspec : hmaSpec [1, 2, 3, 4, 5, 6, 7, 8, 9, 10, 100] 9 = some (377 / 10) := by
    norm_num [hmaSpec, wma, lastN, List.range_succ, hs, List.filterMap_cons,
      List.take_succ_cons, List.drop_succ_cons]
  refine ⟨by norm_num, ?_⟩
  rw [hcode, hspec]
  intro hc
  injection hc with hc2
  norm_num at hc2

/-- Claim C6, amended: `hma(data, n)` computes the Hull combination
`2·WMA(max(1, n/2)) − WMA(n)` only once, at the final bar, splices that
single value onto the raw history `data[:-1]`, and takes WMA over window
`max(1, ⌊sqrt n⌋)` of that spliced list — not the WMA of the rolling derived
series of the standard Hull construction. -/
theorem hma_splices_single_hull_value (data : List ℚ) (n : ℕ) (h1 : 0 < n)
    (h2 : n ≤ data.length) :
    ∃ a b, wma data (max 1 (n / 2)) = some a ∧ wma data n = some b ∧
      hma data n = wma (data.dropLast ++ [2 * a - b]) (max 1 (Nat.sqrt n)) := by
  have hhalf : max 1 (n / 2) ≤ data.length := by
    have := Nat.div_le_self n 2
    omega
  obtain ⟨a, ha⟩ := wma_isSome data (max 1 (n / 2)) (le_max_left _ _) hhalf
  obtain ⟨b, hb⟩ := wma_isSome data n h1 h2
  refine ⟨a, b, ha, hb, ?_⟩
  rw [hma, if_neg (by omega)]
  dsimp only
  rw [ha, hb]

/-- Witness for claim C6 at the 11-bar series and `n = 9`. -/
theorem hma_splices_single_hull_value_witness :
    ∃ a b, wma [1, 2, 3, 4, 5, 6, 7, 8, 9, 10, 100] (max 1 (9 / 2)) = some a ∧
      wma [1, 2, 3, 4, 5, 6, 7, 8, 9, 10, 100] 9 = some b ∧
      hma [1, 2, 3, 4, 5, 6, 7, 8, 9, 10, 100] 9 =
        wma (([1, 2, 3, 4, 5, 6, 7, 8, 9, 10, 100] : List ℚ).dropLast ++ [2 * a - b])
          (max 1 (Nat.sqrt 9)) :=
  hma_splices_single_hull_value [1, 2, 3, 4, 5, 6, 7, 8, 9, 10, 100] 9 (by norm_num)
    (by norm_num)

/-- Claim C7: the composite verdict depends only on the input series — the
clock that stamps the rendered report never influences it, so two
invocations on the identical series produce identical verdicts. -/
theorem verdict_independent_of_clock (t1 t2 : ℕ) (bars : List Bar) :
    (taSummaryFull t1 bars).map Prod.snd = (taSummaryFull t2 bars).map Prod.snd := by
  rw [taSummaryFull, taSummaryFull]
  cases scoreSeries bars <;> rfl

/-- Claim C8: with at least 11 bars the momentum value is
`close[t] − close[t−10]` (and 0 with 10 or fewer bars), and its
classification is always Buy (value strictly positive) or Sell (otherwise),
never neutral. -/
theorem momentum_formula_and_binary_classification (bars : List Bar) :
    (11 ≤ bars.length →
      momVal (closesOf bars) = (closesOf bars).getD (bars.length - 1) 0 -
        (closesOf bars).getD (bars.length - 11) 0) ∧
    (bars.length ≤ 10 → momVal (closesOf bars) = 0) ∧
    ((0 < momVal (closesOf bars) ∧ clsMom (momVal (closesOf bars)) = some Cls.buy) ∨
     (momVal (closesOf bars) ≤ 0 ∧ clsMom (momVal (closesOf bars)) = some Cls.sell)) := by
  refine ⟨?_, ?_, ?_⟩
  · intro h
    rw [momVal, if_pos (by rw [length_closesOf]; omega), negIdx, negIdx, length_closesOf]
  · intro h
    rw [momVal, if_neg (by rw [length_closesOf]; omega)]
  · by_cases hm : 0 < momVal (closesOf bars)
    · exact Or.inl ⟨hm, by rw [clsMom, if_pos hm]⟩
    · exact Or.inr ⟨le_of_not_lt hm, by rw [clsMom, if_neg hm]⟩

/-- Witness for claim C8 at a flat 11-bar series. -/
theorem momentum_formula_and_binary_classification_witness :
    momVal (closesOf (flatBars 11 1 1)) =
      (closesOf (flatBars 11 1 1)).getD ((flatBars 11 1 1).length - 1) 0 -
      (closesOf (flatBars 11 1 1)).getD ((flatBars 11 1 1).length - 11) 0 :=
  (momentum_formula_and_binary_classification (flatBars 11 1 1)).1
    (by rw [length_flatBars])

/-- Claim C9: in the 30-bar branch of Bull/Bear Power the EMA(13) term
cancels, so the smoothed series is exactly the per-bar high−low ranges and
the smoothed value is SMA(30) of those ranges; consequently, whenever every
bar has high ≥ low and some bar among the last 30 has high > low, the
indicator classifies Buy regardless of the closes. -/
theorem bull_bear_reduces_to_range_sma (bars : List Bar) (h30 : 30 ≤ bars.length) :
    bbSeries (highsOf bars) (lowsOf bars) (emaSeriesK (closesOf bars) (2 / 14)) =
      bars.map (fun b => b.hi - b.lo) ∧
    sma (bbSeries (highsOf bars) (lowsOf bars) (emaSeriesK (closesOf bars) (2 / 14))) 30 =
      sma (bars.map (fun b => b.hi - b.lo)) 30 ∧
    ((∀ b ∈ bars, b.lo ≤ b.hi) → (∃ b ∈ bars.drop (bars.length - 30), b.lo < b.hi) →
      clsBullBear (highsOf bars) (lowsOf bars) (closesOf bars) = some Cls.buy) := by
  have hbb : bbSeries (highsOf bars) (lowsOf bars) (emaSeriesK (closesOf bars) (2 / 14)) =
      bars.map (fun b => b.hi - b.lo) := by
    rw [bbSeries_eq_zipWith _ _ _
      (by rw [length_highsOf, emaSeriesK_length, length_closesOf])
      (by rw [length_lowsOf, emaSeriesK_length, length_closesOf]),
      zipWith_sub_highs_lows]
  refine ⟨hbb, by rw [hbb], ?_⟩
  intro hall hex
  obtain ⟨e13, he⟩ := ema_isSome (closesOf bars) 13 (by omega)
    (by rw [length_closesOf]; omega)
  rw [clsBullBear, he]
  dsimp only
  rw [if_pos (by rw [length_closesOf]; omega), hbb]
  have hsum : 0 < (lastN 30 (bars.map (fun b => b.hi - b.lo))).sum := by
    apply sum_pos_mixed
    · intro x hx
      rw [lastN, List.length_map, ← List.map_drop] at hx
      obtain ⟨b, hb, rfl⟩ := List.mem_map.mp hx
      have hmem : b ∈ bars := List.mem_of_mem_drop hb
      have := hall b hmem
      linarith
    · obtain ⟨b, hb, hlt⟩ := hex
      refine ⟨b.hi - b.lo, ?_, by linarith⟩
      rw [lastN, List.length_map, ← List.map_drop]
      exact List.mem_map.mpr ⟨b, hb, rfl⟩
  have hlen : ¬((bars.map (fun b => b.hi - b.lo)).length < 30) := by
    rw [List.length_map]; omega
  rw [sma, if_neg (by rw [List.length_map]; omega)]
  dsimp only
  rw [if_pos (by positivity)]

/-- Witness for claim C9 at thirty bars with high 2, low 1. -/
theorem bull_bear_reduces_to_range_sma_witness :
    clsBullBear (highsOf (List.replicate 30 (Bar.mk 1 2 1 1 1)))
      (lowsOf (List.replicate 30 (Bar.mk 1 2 1 1 1)))
      (closesOf (List.replicate 30 (Bar.mk 1 2 1 1 1))) = some Cls.buy :=
  (bull_bear_reduces_to_range_sma (List.replicate 30 (Bar.mk 1 2 1 1 1))
    (by simp)).2.2
    (by intro b hb; rw [List.mem_replicate] at hb; rw [hb.2]; norm_num)
    (⟨Bar.mk 1 2 1 1 1, by simp [List.mem_replicate], by norm_num⟩)

/-- Claim C10: under the scorer's 50-bar precondition the RSI and
Stochastic oscillators can never return absence, so the scorer's unguarded
comparisons are safe and it never fails with the TypeError path. -/
theorem rsi_stoch_never_none_under_precondition (bars : List Bar)
    (h : 50 ≤ bars.length) :
    (rsi_series (closesOf bars) 14).isSome ∧
    (stoch_k (highsOf bars) (lowsOf bars) (closesOf bars) 14 3).isSome ∧
    scoreSeries bars ≠ .error .typeError := by
  obtain ⟨r, hr⟩ := rsi_series_isSome (closesOf bars) (by rw [length_closesOf]; omega)
  obtain ⟨s, hs⟩ := stoch_k_isSome (highsOf bars) (lowsOf bars) (closesOf bars)
    (by rw [length_closesOf]; omega)
  refine ⟨by rw [hr]; rfl, by rw [hs]; rfl, ?_⟩
  rw [scoreSeries, if_neg (by omega), hr, hs]
  intro hc
  exact Except.noConfusion hc

/-- Witness for claim C10 at the flat 50-bar series. -/
theorem rsi_stoch_never_none_under_precondition_witness :
    (rsi_series (closesOf (flatBars 50 1 1)) 14).isSome ∧
    (stoch_k (highsOf (flatBars 50 1 1)) (lowsOf (flatBars 50 1 1))
      (closesOf (flatBars 50 1 1)) 14 3).isSome ∧
    scoreSeries (flatBars 50 1 1) ≠ .error .typeError :=
  rsi_stoch_never_none_under_precondition (flatBars 50 1 1) (by rw [length_flatBars])

